import Mathlib

/-! Verification of the oplog `Operation` decoder (`src/oper.rs`): a shallow
embedding of the BSON data model and the decoder, with proofs of the
specification's properties about them. -/

namespace Oplog

/-- Modelled from the bson crate (external dependency of the source): a BSON
timestamp, a pair of unsigned 32-bit integers (`time`, `increment`). -/
structure Timestamp where
  time : Nat
  increment : Nat
deriving DecidableEq

/-- Modelled from the bson crate (external dependency of the source): the BSON
value tree, restricted to the constructors the decoder distinguishes (floating
point values are omitted; the decoder never inspects them).  `binary` carries
its subtype tag (0 is the generic subtype) and its raw bytes. -/
inductive Bson where
  | int32 : Int → Bson
  | int64 : Int → Bson
  | string : String → Bson
  | boolean : Bool → Bson
  | null : Bson
  | document : List (String × Bson) → Bson
  | array : List Bson → Bson
  | binary : Nat → List Nat → Bson
  | timestamp : Timestamp → Bson

/-- A BSON document: an ordered list of key–value pairs, as the decoder reads
it (the bson crate's `Document`; the decoder only ever reads from it). -/
abbrev Document := List (String × Bson)

/-- Modelled from the bson crate: `Document::get` — the value at the first
matching key, if any. -/
def Document.get : Document → String → Option Bson
  | [], _ => none
  | (k, v) :: rest, key => if k = key then some v else Document.get rest key

/-- Modelled from the bson crate: `ValueAccessError`, the error type of the
typed `Document` accessors. -/
inductive ValueAccessError where
  | NotPresent
  | UnexpectedType
deriving DecidableEq

/-- Modelled from the bson crate: `Bson::as_str`. -/
def Bson.as_str : Bson → Option String
  | .string s => some s
  | _ => none

/-- Modelled from the bson crate: `Bson::as_document`. -/
def Bson.as_document : Bson → Option (List (String × Bson))
  | .document d => some d
  | _ => none

/-- Modelled from the bson crate: `Document::get_str`. -/
def Document.get_str (d : Document) (key : String) : Except ValueAccessError String :=
  match Document.get d key with
  | none => .error .NotPresent
  | some (.string s) => .ok s
  | some _ => .error .UnexpectedType

/-- Modelled from the bson crate: `Document::get_document`. -/
def Document.get_document (d : Document) (key : String) : Except ValueAccessError Document :=
  match Document.get d key with
  | none => .error .NotPresent
  | some (.document o) => .ok o
  | some _ => .error .UnexpectedType

/-- Modelled from the bson crate: `Document::get_array`. -/
def Document.get_array (d : Document) (key : String) : Except ValueAccessError (List Bson) :=
  match Document.get d key with
  | none => .error .NotPresent
  | some (.array xs) => .ok xs
  | some _ => .error .UnexpectedType

/-- Modelled from the bson crate: `Document::get_timestamp`. -/
def Document.get_timestamp (d : Document) (key : String) : Except ValueAccessError Timestamp :=
  match Document.get d key with
  | none => .error .NotPresent
  | some (.timestamp t) => .ok t
  | some _ => .error .UnexpectedType

/-- Modelled from the bson crate: `Document::get_binary_generic` — the raw
bytes of a binary value with the generic subtype (tag 0). -/
def Document.get_binary_generic (d : Document) (key : String) :
    Except ValueAccessError (List Nat) :=
  match Document.get d key with
  | none => .error .NotPresent
  | some (.binary 0 bytes) => .ok bytes
  | some _ => .error .UnexpectedType

/-- Modelled from the spec: the crate's `Error` type lives in `lib.rs`, which
is not part of the provided sources; §7 of the spec fixes the decoder-relevant
kinds, and the unit tests in `oper.rs` show `MissingField` wrapping the
accessor's `ValueAccessError` (the `?` operator converts via `From`). -/
inductive Error where
  | MissingField : ValueAccessError → Error
  | UnknownOperation : String → Error
  | InvalidOperation
deriving DecidableEq

/-- Modelled from the chrono crate (external dependency of the source): a
`DateTime<Utc>` reduced to its timeline coordinates — whole seconds since the
Unix epoch and the sub-second component in nanoseconds (which chrono lets
range up to `1_999_999_999` to represent leap seconds).  chrono orders
datetimes lexicographically by these two coordinates. -/
structure DateTime where
  secs : Int
  nsec : Nat
deriving DecidableEq

/-- chrono's ordering on `DateTime<Utc>`, restricted to this model:
lexicographic on (whole seconds, sub-second nanoseconds). -/
def DateTime.le (a b : DateTime) : Prop :=
  a.secs < b.secs ∨ (a.secs = b.secs ∧ a.nsec ≤ b.nsec)

instance (a b : DateTime) : Decidable (DateTime.le a b) := by
  unfold DateTime.le; infer_instance

/-- Modelled from the chrono crate: `Utc.timestamp(secs, nsecs)` builds the
datetime `secs` whole seconds past the epoch with `nsecs` nanoseconds into the
second; it accepts `nsecs` up to `1_999_999_999` (leap-second representation)
and panics on larger values.  `none` models that panic.  (chrono's date-range
check on `secs` cannot fire for the `u32`-derived seconds this program passes,
so it is not modelled.) -/
def Utc.timestamp (secs : Int) (nsecs : Nat) : Option DateTime :=
  if nsecs ≤ 1999999999 then some ⟨secs, nsecs⟩ else none

/-- The standard base64 alphabet (`A–Z a–z 0–9 + /`). -/
def base64Alphabet : List Char :=
  "ABCDEFGHIJKLMNOPQRSTUVWXYZabcdefghijklmnopqrstuvwxyz0123456789+/".toList

/-- Character `n` of the standard base64 alphabet. -/
def b64c (n : Nat) : Char := base64Alphabet.getD n '='

/-- Standard base64, chunk by chunk: three bytes become four alphabet
characters; a trailing one- or two-byte group is padded with `=`. -/
def encodeChunks : List Nat → List Char
  | [] => []
  | [a] => [b64c (a / 4), b64c (a % 4 * 16), '=', '=']
  | [a, b] => [b64c (a / 4), b64c (a % 4 * 16 + b / 16), b64c (b % 16 * 4), '=']
  | a :: b :: c :: rest =>
      b64c (a / 4) :: b64c (a % 4 * 16 + b / 16) :: b64c (b % 16 * 4 + c / 64)
        :: b64c (c % 64) :: encodeChunks rest

/-- Modelled from the base64 crate (external dependency of the source):
`base64::encode` — the standard alphabet, with padding. -/
def encode (bytes : List Nat) : String := String.mk (encodeChunks bytes)

/-- `get_uid`: read the `"lsid"` sub-document, then the generic-subtype binary
field `"uid"` inside it, and base64-encode those bytes.  The `?` operator's
`From<ValueAccessError>` conversion produces `MissingField`. -/
def get_uid (document : Document) : Except Error String :=
  match Document.get_document document "lsid" with
  | .error e => .error (.MissingField e)
  | .ok lsid =>
    match Document.get_binary_generic lsid "uid" with
    | .error e => .error (.MissingField e)
    | .ok bytes => .ok (encode bytes)

/-- `timestamp_to_datetime`: `Utc.timestamp(timestamp.time as i64,
timestamp.increment)`.  `none` models the chrono panic when the increment is
not a valid nanosecond count (≥ 2·10⁹). -/
def timestamp_to_datetime (timestamp : Timestamp) : Option DateTime :=
  Utc.timestamp (timestamp.time : Int) timestamp.increment

/-- The outcome of running a fallible Rust function that may also panic:
`ok`/`err` are the two sides of `Result`, and `panicked` marks a process
abort (an `unwrap` on an `Err`, or a panicking library call). -/
inductive Outcome (α : Type) where
  | ok : α → Outcome α
  | err : Error → Outcome α
  | panicked : Outcome α
deriving DecidableEq

/-- The decoded oplog operation (`enum Operation` of the source), with
`DateTime` in place of chrono's `DateTime<Utc>`.  The source's `namespace`
field is called `ns` here (`namespace` is a Lean keyword). -/
inductive Operation where
  | Noop (uid : String) (timestamp : DateTime) (message : Option String)
  | Insert (uid : String) (timestamp : DateTime) (ns : String) (document : Document)
  | Update (uid : String) (timestamp : DateTime) (ns : String)
      (query : Document) (update : Document)
  | Delete (uid : String) (timestamp : DateTime) (ns : String) (query : Document)
  | Command (uid : String) (timestamp : DateTime) (ns : String) (command : Document)
  | ApplyOps (uid : String) (timestamp : DateTime) (ns : String)
      (operations : List Operation)

/-- The `uid` field common to every variant. -/
def Operation.uid : Operation → String
  | .Noop uid _ _ => uid
  | .Insert uid _ _ _ => uid
  | .Update uid _ _ _ _ => uid
  | .Delete uid _ _ _ => uid
  | .Command uid _ _ _ => uid
  | .ApplyOps uid _ _ _ => uid

/-- `Operation::from_noop`.  The `uid` field is evaluated first (Rust struct
expressions evaluate fields in written order); `get_uid(document).unwrap()`
panics when `get_uid` errs, and `timestamp_to_datetime` panics on an invalid
increment. -/
def Operation.from_noop (document : Document) : Outcome Operation :=
  match Document.get_timestamp document "ts" with
  | .error e => .err (.MissingField e)
  | .ok ts =>
    let message :=
      (((Document.get document "o").bind Bson.as_document).bind
          (fun d => Document.get d "msg")).bind Bson.as_str
    match get_uid document with
    | .error _ => .panicked
    | .ok uid =>
      match timestamp_to_datetime ts with
      | none => .panicked
      | some dt => .ok (.Noop uid dt message)

/-- `Operation::from_insert`. -/
def Operation.from_insert (document : Document) : Outcome Operation :=
  match Document.get_timestamp document "ts" with
  | .error e => .err (.MissingField e)
  | .ok ts =>
    match Document.get_str document "ns" with
    | .error e => .err (.MissingField e)
    | .ok ns =>
      match Document.get_document document "o" with
      | .error e => .err (.MissingField e)
      | .ok o =>
        match get_uid document with
        | .error _ => .panicked
        | .ok uid =>
          match timestamp_to_datetime ts with
          | none => .panicked
          | some dt => .ok (.Insert uid dt ns o)

/-- `Operation::from_update`: reads `ts`, `ns`, `o`, `o2` in that order;
`o2` becomes `query` and `o` becomes `update`. -/
def Operation.from_update (document : Document) : Outcome Operation :=
  match Document.get_timestamp document "ts" with
  | .error e => .err (.MissingField e)
  | .ok ts =>
    match Document.get_str document "ns" with
    | .error e => .err (.MissingField e)
    | .ok ns =>
      match Document.get_document document "o" with
      | .error e => .err (.MissingField e)
      | .ok o =>
        match Document.get_document document "o2" with
        | .error e => .err (.MissingField e)
        | .ok o2 =>
          match get_uid document with
          | .error _ => .panicked
          | .ok uid =>
            match timestamp_to_datetime ts with
            | none => .panicked
            | some dt => .ok (.Update uid dt ns o2 o)

/-- `Operation::from_delete`. -/
def Operation.from_delete (document : Document) : Outcome Operation :=
  match Document.get_timestamp document "ts" with
  | .error e => .err (.MissingField e)
  | .ok ts =>
    match Document.get_str document "ns" with
    | .error e => .err (.MissingField e)
    | .ok ns =>
      match Document.get_document document "o" with
      | .error e => .err (.MissingField e)
      | .ok o =>
        match get_uid document with
        | .error _ => .panicked
        | .ok uid =>
          match timestamp_to_datetime ts with
          | none => .panicked
          | some dt => .ok (.Delete uid dt ns o)

/-- `Document.get` only returns values stored in the document, so they are
structurally smaller than it. -/
theorem Document.get_sizeOf {d : Document} {key : String} {v : Bson}
    (h : Document.get d key = some v) : sizeOf v < sizeOf d := by
  induction d with
  | nil => simp [Document.get] at h
  | cons p rest ih =>
    obtain ⟨k, w⟩ := p
    by_cases hk : k = key
    · simp [Document.get, hk] at h
      subst h
      simp
      omega
    · simp [Document.get, hk] at h
      have := ih h
      simp
      omega

/-- A sub-document retrieved by `get_document` is smaller than its parent. -/
theorem Document.get_document_sizeOf {d : Document} {key : String} {o : Document}
    (h : Document.get_document d key = .ok o) : sizeOf o < sizeOf d := by
  unfold Document.get_document at h
  cases hg : Document.get d key with
  | none => rw [hg] at h; exact absurd h (by simp)
  | some b =>
    rw [hg] at h
    cases b <;> simp at h
    subst h
    have := Document.get_sizeOf hg
    simp at this
    omega

/-- An array retrieved by `get_array` is smaller than its document. -/
theorem Document.get_array_sizeOf {d : Document} {key : String} {xs : List Bson}
    (h : Document.get_array d key = .ok xs) : sizeOf xs < sizeOf d := by
  unfold Document.get_array at h
  cases hg : Document.get d key with
  | none => rw [hg] at h; exact absurd h (by simp)
  | some b =>
    rw [hg] at h
    cases b <;> simp at h
    subst h
    have := Document.get_sizeOf hg
    simp at this
    omega

mutual

/-- `Operation::new`: dispatch on the string tag at key `"op"`; unrecognized
tags give `UnknownOperation`, a missing or non-string tag gives
`MissingField` (via the `?` conversion of the accessor's error). -/
def Operation.new (document : Document) : Outcome Operation :=
  match Document.get_str document "op" with
  | .error e => .err (.MissingField e)
  | .ok op =>
    if op = "n" then Operation.from_noop document
    else if op = "i" then Operation.from_insert document
    else if op = "u" then Operation.from_update document
    else if op = "d" then Operation.from_delete document
    else if op = "c" then Operation.from_command document
    else .err (.UnknownOperation op)
termination_by 2 * sizeOf document + 1

/-- `Operation::from_bson`: a batch element must be a document, anything else
is `InvalidOperation`. -/
def Operation.from_bson (bson : Bson) : Outcome Operation :=
  match bson with
  | .document document => Operation.new document
  | _ => .err .InvalidOperation
termination_by 2 * sizeOf bson

/-- `Operation::from_command`: after `ts`, `ns`, `o`, probe `o` for the
`"applyOps"` array; on success decode every element (fail-fast) into an
`ApplyOps`, otherwise fall back to a plain `Command` carrying `o` untouched. -/
def Operation.from_command (document : Document) : Outcome Operation :=
  match Document.get_timestamp document "ts" with
  | .error e => .err (.MissingField e)
  | .ok ts =>
    match Document.get_str document "ns" with
    | .error e => .err (.MissingField e)
    | .ok ns =>
      match ho : Document.get_document document "o" with
      | .error e => .err (.MissingField e)
      | .ok o =>
        match ha : Document.get_array o "applyOps" with
        | .ok ops =>
          match Operation.fromBsonList ops with
          | .err e => .err e
          | .panicked => .panicked
          | .ok operations =>
            match get_uid document with
            | .error _ => .panicked
            | .ok uid =>
              match timestamp_to_datetime ts with
              | none => .panicked
              | some dt => .ok (.ApplyOps uid dt ns operations)
        | .error _ =>
          match get_uid document with
          | .error _ => .panicked
          | .ok uid =>
            match timestamp_to_datetime ts with
            | none => .panicked
            | some dt => .ok (.Command uid dt ns o)
termination_by 2 * sizeOf document
decreasing_by
  have h1 := Document.get_document_sizeOf ho
  have h2 := Document.get_array_sizeOf ha
  omega

/-- The batch traversal `ops.iter().map(Operation::from_bson)
.collect::<Result<Vec<Operation>>>()`: decode elements in order, stopping at
the first failure. -/
def Operation.fromBsonList (ops : List Bson) : Outcome (List Operation) :=
  match ops with
  | [] => .ok []
  | x :: rest =>
    match Operation.from_bson x with
    | .err e => .err e
    | .panicked => .panicked
    | .ok o =>
      match Operation.fromBsonList rest with
      | .err e => .err e
      | .panicked => .panicked
      | .ok os => .ok (o :: os)
termination_by 2 * sizeOf ops

end

/-- `Operation.from_command` restated with plain (unnamed) matches: the named
discriminants in the definition exist only for the termination proof, and this
equation is the convenient rewriting form. -/
theorem Operation.from_command_eq (document : Document) :
    Operation.from_command document =
      match Document.get_timestamp document "ts" with
      | .error e => .err (.MissingField e)
      | .ok ts =>
        match Document.get_str document "ns" with
        | .error e => .err (.MissingField e)
        | .ok ns =>
          match Document.get_document document "o" with
          | .error e => .err (.MissingField e)
          | .ok o =>
            match Document.get_array o "applyOps" with
            | .ok ops =>
              match Operation.fromBsonList ops with
              | .err e => .err e
              | .panicked => .panicked
              | .ok operations =>
                match get_uid document with
                | .error _ => .panicked
                | .ok uid =>
                  match timestamp_to_datetime ts with
                  | none => .panicked
                  | some dt => .ok (.ApplyOps uid dt ns operations)
            | .error _ =>
              match get_uid document with
              | .error _ => .panicked
              | .ok uid =>
                match timestamp_to_datetime ts with
                | none => .panicked
                | some dt => .ok (.Command uid dt ns o) := by
  rw [Operation.from_command]
  cases Document.get_timestamp document "ts" with
  | error e => rfl
  | ok ts =>
    cases Document.get_str document "ns" with
    | error e => rfl
    | ok ns =>
      cases Document.get_document document "o" with
      | error e => rfl
      | ok o =>
        dsimp only
        cases Document.get_array o "applyOps" with
        | error e => rfl
        | ok ops => rfl

/-- The optional no-op message as `from_noop` derives it:
`document.get("o").and_then(as_document).and_then(get("msg")).and_then(as_str)`. -/
def noopMessage (d : Document) : Option String :=
  (((Document.get d "o").bind Bson.as_document).bind
      (fun x => Document.get x "msg")).bind Bson.as_str

/-- Inversion for a successful `from_noop`. -/
theorem Operation.from_noop_inv {d : Document} {r : Operation}
    (h : Operation.from_noop d = .ok r) :
    ∃ ts dt u, Document.get_timestamp d "ts" = .ok ts ∧
      get_uid d = .ok u ∧
      timestamp_to_datetime ts = some dt ∧
      r = .Noop u dt (noopMessage d) := by
  unfold Operation.from_noop at h
  split at h
  · simp at h
  next ts hts =>
    split at h
    · simp at h
    next u hu =>
      split at h
      · simp at h
      next dt hdt =>
        cases h
        exact ⟨ts, dt, u, hts, hu, hdt, rfl⟩

/-- Inversion for a successful `from_insert`. -/
theorem Operation.from_insert_inv {d : Document} {r : Operation}
    (h : Operation.from_insert d = .ok r) :
    ∃ ts dt u n o, Document.get_timestamp d "ts" = .ok ts ∧
      Document.get_str d "ns" = .ok n ∧
      Document.get_document d "o" = .ok o ∧
      get_uid d = .ok u ∧
      timestamp_to_datetime ts = some dt ∧
      r = .Insert u dt n o := by
  unfold Operation.from_insert at h
  split at h
  · simp at h
  next ts hts =>
    split at h
    · simp at h
    next n hn =>
      split at h
      · simp at h
      next o ho =>
        split at h
        · simp at h
        next u hu =>
          split at h
          · simp at h
          next dt hdt =>
            cases h
            exact ⟨ts, dt, u, n, o, hts, hn, ho, hu, hdt, rfl⟩

/-- Inversion for a successful `from_update`: `query` comes from `"o2"` and
`update` from `"o"`. -/
theorem Operation.from_update_inv {d : Document} {r : Operation}
    (h : Operation.from_update d = .ok r) :
    ∃ ts dt u n o o2, Document.get_timestamp d "ts" = .ok ts ∧
      Document.get_str d "ns" = .ok n ∧
      Document.get_document d "o" = .ok o ∧
      Document.get_document d "o2" = .ok o2 ∧
      get_uid d = .ok u ∧
      timestamp_to_datetime ts = some dt ∧
      r = .Update u dt n o2 o := by
  unfold Operation.from_update at h
  split at h
  · simp at h
  next ts hts =>
    split at h
    · simp at h
    next n hn =>
      split at h
      · simp at h
      next o ho =>
        split at h
        · simp at h
        next o2 ho2 =>
          split at h
          · simp at h
          next u hu =>
            split at h
            · simp at h
            next dt hdt =>
              cases h
              exact ⟨ts, dt, u, n, o, o2, hts, hn, ho, ho2, hu, hdt, rfl⟩

/-- Inversion for a successful `from_delete`. -/
theorem Operation.from_delete_inv {d : Document} {r : Operation}
    (h : Operation.from_delete d = .ok r) :
    ∃ ts dt u n o, Document.get_timestamp d "ts" = .ok ts ∧
      Document.get_str d "ns" = .ok n ∧
      Document.get_document d "o" = .ok o ∧
      get_uid d = .ok u ∧
      timestamp_to_datetime ts = some dt ∧
      r = .Delete u dt n o := by
  unfold Operation.from_delete at h
  split at h
  · simp at h
  next ts hts =>
    split at h
    · simp at h
    next n hn =>
      split at h
      · simp at h
      next o ho =>
        split at h
        · simp at h
        next u hu =>
          split at h
          · simp at h
          next dt hdt =>
            cases h
            exact ⟨ts, dt, u, n, o, hts, hn, ho, hu, hdt, rfl⟩

/-- Inversion for a successful `from_command`: either an `ApplyOps` built by
recursively decoding a present `"applyOps"` array, or a plain `Command`
carrying the untouched payload when that array is not retrievable. -/
theorem Operation.from_command_inv {d : Document} {r : Operation}
    (h : Operation.from_command d = .ok r) :
    ∃ ts dt u n o, Document.get_timestamp d "ts" = .ok ts ∧
      Document.get_str d "ns" = .ok n ∧
      Document.get_document d "o" = .ok o ∧
      get_uid d = .ok u ∧
      timestamp_to_datetime ts = some dt ∧
      ((∃ ops operations, Document.get_array o "applyOps" = .ok ops ∧
          Operation.fromBsonList ops = .ok operations ∧
          r = .ApplyOps u dt n operations) ∨
        ((∃ e, Document.get_array o "applyOps" = .error e) ∧ r = .Command u dt n o)) := by
  rw [Operation.from_command_eq] at h
  split at h
  · simp at h
  next ts hts =>
    split at h
    · simp at h
    next n hn =>
      split at h
      · simp at h
      next o ho =>
        split at h
        next ops hops =>
          split at h
          · simp at h
          · simp at h
          next operations hoperations =>
            split at h
            · simp at h
            next u hu =>
              split at h
              · simp at h
              next dt hdt =>
                cases h
                exact ⟨ts, dt, u, n, o, hts, hn, ho, hu, hdt,
                  .inl ⟨ops, operations, hops, hoperations, rfl⟩⟩
        next e he =>
          split at h
          · simp at h
          next u hu =>
            split at h
            · simp at h
            next dt hdt =>
              cases h
              exact ⟨ts, dt, u, n, o, hts, hn, ho, hu, hdt, .inr ⟨⟨e, he⟩, rfl⟩⟩

/-- Inversion for `Operation::new`: a successful decode factors through the
string tag and the matching variant extractor. -/
theorem Operation.new_inv {d : Document} {r : Operation}
    (h : Operation.new d = .ok r) :
    ∃ s, Document.get_str d "op" = .ok s ∧
      ((s = "n" ∧ Operation.from_noop d = .ok r) ∨
        (s = "i" ∧ Operation.from_insert d = .ok r) ∨
        (s = "u" ∧ Operation.from_update d = .ok r) ∨
        (s = "d" ∧ Operation.from_delete d = .ok r) ∨
        (s = "c" ∧ Operation.from_command d = .ok r)) := by
  rw [Operation.new] at h
  split at h
  · simp at h
  next s hs =>
    by_cases h1 : s = "n"
    · exact ⟨s, hs, .inl ⟨h1, by rw [if_pos h1] at h; exact h⟩⟩
    rw [if_neg h1] at h
    by_cases h2 : s = "i"
    · exact ⟨s, hs, .inr (.inl ⟨h2, by rw [if_pos h2] at h; exact h⟩)⟩
    rw [if_neg h2] at h
    by_cases h3 : s = "u"
    · exact ⟨s, hs, .inr (.inr (.inl ⟨h3, by rw [if_pos h3] at h; exact h⟩))⟩
    rw [if_neg h3] at h
    by_cases h4 : s = "d"
    · exact ⟨s, hs, .inr (.inr (.inr (.inl ⟨h4, by rw [if_pos h4] at h; exact h⟩)))⟩
    rw [if_neg h4] at h
    by_cases h5 : s = "c"
    · exact ⟨s, hs, .inr (.inr (.inr (.inr ⟨h5, by rw [if_pos h5] at h; exact h⟩)))⟩
    rw [if_neg h5] at h
    simp at h

/-- C1: the claim says decode never aborts the process and in particular
returns an error (not a panic) when the `"lsid"` sub-document is absent from
a non-no-op document whose required fields are present.  The code instead
panics: every success path runs `get_uid(document).unwrap()`.  This theorem
evaluates the decoder at the crate's own doctest input (an insert document
with no `"lsid"` at all) and shows the outcome is a panic, not an error. -/
theorem C1_insert_without_lsid_panics :
    Operation.new
      [("ts", .timestamp ⟨1479561394, 0⟩), ("h", .int64 (-1742072865587022793)),
        ("v", .int32 2), ("op", .string "i"), ("ns", .string "foo.bar"),
        ("o", .document [("foo", .string "bar")])] = .panicked := by
  simp [Operation.new, Operation.from_insert, Document.get_str, Document.get_timestamp,
    Document.get_document, Document.get, get_uid]

/-- C2 (counterexample): a command document whose `"applyOps"` field is a
present but *empty* array does not fall back to a plain `Command`; it decodes
to an `ApplyOps` whose operations sequence is empty, refuting both halves of
the claim. -/
theorem C2_empty_applyOps_decodes_to_empty_ApplyOps :
    Operation.new
      [("ts", .timestamp ⟨1, 0⟩), ("op", .string "c"), ("ns", .string "a.$cmd"),
        ("o", .document [("applyOps", .array [])]),
        ("lsid", .document [("uid", .binary 0 [1])])]
      = .ok (.ApplyOps "AQ==" ⟨1, 0⟩ "a.$cmd" []) := by
  simp [Operation.new, Operation.from_command_eq, Operation.fromBsonList,
    Document.get_str, Document.get_timestamp, Document.get_document,
    Document.get_array, Document.get_binary_generic, Document.get, get_uid,
    timestamp_to_datetime, Utc.timestamp, encode, encodeChunks, b64c, base64Alphabet]

/-- C2 (amended): whenever decode returns an `ApplyOps`, its operations are
exactly the successful decodes of the batch array's elements (each a fully
valid `Operation`), though the sequence may be empty — an empty `"applyOps"`
array yields an empty `ApplyOps`, not a `Command`; the fallback to a plain
`Command` carrying the untouched payload happens exactly when the batch field
is absent or is not an array. -/
theorem C2_ApplyOps_operations_are_decoded_batch (d : Document) :
    (∀ u t n ops, Operation.new d = .ok (.ApplyOps u t n ops) →
      ∃ o l, Document.get_document d "o" = .ok o ∧
        Document.get_array o "applyOps" = .ok l ∧
        Operation.fromBsonList l = .ok ops) ∧
    (∀ u t n c, Operation.new d = .ok (.Command u t n c) →
      Document.get_document d "o" = .ok c ∧
        ∃ e, Document.get_array c "applyOps" = .error e) := by
  constructor
  · intro u t n ops h
    obtain ⟨s, hs, hcase⟩ := Operation.new_inv h
    rcases hcase with ⟨_, hv⟩ | ⟨_, hv⟩ | ⟨_, hv⟩ | ⟨_, hv⟩ | ⟨_, hv⟩
    · obtain ⟨_, _, _, _, _, _, hr⟩ := Operation.from_noop_inv hv
      simp at hr
    · obtain ⟨_, _, _, _, _, _, _, _, _, _, hr⟩ := Operation.from_insert_inv hv
      simp at hr
    · obtain ⟨_, _, _, _, _, _, _, _, _, _, _, _, hr⟩ := Operation.from_update_inv hv
      simp at hr
    · obtain ⟨_, _, _, _, _, _, _, _, _, _, hr⟩ := Operation.from_delete_inv hv
      simp at hr
    · obtain ⟨ts, dt, u', n', o, _, _, ho, _, _, hbr⟩ := Operation.from_command_inv hv
      rcases hbr with ⟨ops', operations, hops, hfl, hr⟩ | ⟨⟨e, he⟩, hr⟩
      · obtain ⟨rfl, rfl, rfl, rfl⟩ :
            u = u' ∧ t = dt ∧ n = n' ∧ ops = operations := by
          cases hr; exact ⟨rfl, rfl, rfl, rfl⟩
        exact ⟨o, ops', ho, hops, hfl⟩
      · simp at hr
  · intro u t n c h
    obtain ⟨s, hs, hcase⟩ := Operation.new_inv h
    rcases hcase with ⟨_, hv⟩ | ⟨_, hv⟩ | ⟨_, hv⟩ | ⟨_, hv⟩ | ⟨_, hv⟩
    · obtain ⟨_, _, _, _, _, _, hr⟩ := Operation.from_noop_inv hv
      simp at hr
    · obtain ⟨_, _, _, _, _, _, _, _, _, _, hr⟩ := Operation.from_insert_inv hv
      simp at hr
    · obtain ⟨_, _, _, _, _, _, _, _, _, _, _, _, hr⟩ := Operation.from_update_inv hv
      simp at hr
    · obtain ⟨_, _, _, _, _, _, _, _, _, _, hr⟩ := Operation.from_delete_inv hv
      simp at hr
    · obtain ⟨ts, dt, u', n', o, _, _, ho, _, _, hbr⟩ := Operation.from_command_inv hv
      rcases hbr with ⟨ops', operations, hops, hfl, hr⟩ | ⟨⟨e, he⟩, hr⟩
      · simp at hr
      · obtain ⟨rfl, rfl, rfl, rfl⟩ :
            u = u' ∧ t = dt ∧ n = n' ∧ c = o := by
          cases hr; exact ⟨rfl, rfl, rfl, rfl⟩
        exact ⟨ho, e, he⟩

/-- C2 (witness): the amended theorem applied at the empty-batch command
document. -/
theorem C2_ApplyOps_operations_are_decoded_batch_witness :
    ∃ o l, Document.get_document
        [("ts", Bson.timestamp ⟨1, 0⟩), ("op", Bson.string "c"),
          ("ns", Bson.string "a.$cmd"),
          ("o", Bson.document [("applyOps", Bson.array [])]),
          ("lsid", Bson.document [("uid", Bson.binary 0 [1])])] "o" = .ok o ∧
      Document.get_array o "applyOps" = .ok l ∧
      Operation.fromBsonList l = .ok [] :=
  (C2_ApplyOps_operations_are_decoded_batch _).1 "AQ==" ⟨1, 0⟩ "a.$cmd" []
    (by simp [Operation.new, Operation.from_command_eq, Operation.fromBsonList,
      Document.get_str, Document.get_timestamp, Document.get_document,
      Document.get_array, Document.get_binary_generic, Document.get, get_uid,
      timestamp_to_datetime, Utc.timestamp, encode, encodeChunks, b64c, base64Alphabet])

/-- C3: `Operation::new` first reads `"op"` as a string — a missing key gives
`MissingField NotPresent` and a non-string value gives
`MissingField UnexpectedType`; a string tag outside `{n,i,u,d,c}` gives
`UnknownOperation` carrying exactly that tag; and each of the five recognized
tags dispatches to its variant extractor. -/
theorem C3_tag_dispatch (d : Document) :
    (Document.get d "op" = none →
      Operation.new d = .err (.MissingField .NotPresent)) ∧
    (∀ b, Document.get d "op" = some b → Bson.as_str b = none →
      Operation.new d = .err (.MissingField .UnexpectedType)) ∧
    (∀ s, Document.get d "op" = some (.string s) →
      s ≠ "n" → s ≠ "i" → s ≠ "u" → s ≠ "d" → s ≠ "c" →
      Operation.new d = .err (.UnknownOperation s)) ∧
    (Document.get d "op" = some (.string "n") →
      Operation.new d = Operation.from_noop d) ∧
    (Document.get d "op" = some (.string "i") →
      Operation.new d = Operation.from_insert d) ∧
    (Document.get d "op" = some (.string "u") →
      Operation.new d = Operation.from_update d) ∧
    (Document.get d "op" = some (.string "d") →
      Operation.new d = Operation.from_delete d) ∧
    (Document.get d "op" = some (.string "c") →
      Operation.new d = Operation.from_command d) := by
  refine ⟨?_, ?_, ?_, ?_, ?_, ?_, ?_, ?_⟩
  · intro h
    rw [Operation.new]
    simp [Document.get_str, h]
  · intro b hb hstr
    rw [Operation.new]
    unfold Document.get_str
    rw [hb]
    cases b <;> simp_all [Bson.as_str]
  · intro s hs h1 h2 h3 h4 h5
    rw [Operation.new]
    unfold Document.get_str
    rw [hs]
    simp [h1, h2, h3, h4, h5]
  · intro h
    rw [Operation.new]
    unfold Document.get_str
    rw [h]
    simp
  · intro h
    rw [Operation.new]
    unfold Document.get_str
    rw [h]
    simp
  · intro h
    rw [Operation.new]
    unfold Document.get_str
    rw [h]
    simp
  · intro h
    rw [Operation.new]
    unfold Document.get_str
    rw [h]
    simp
  · intro h
    rw [Operation.new]
    unfold Document.get_str
    rw [h]
    simp

/-- C3 (witness): the dispatch theorem applied at a document with the
unrecognized tag `"x"` and at one with a non-string tag. -/
theorem C3_tag_dispatch_witness :
    Operation.new [("op", Bson.string "x")] = .err (.UnknownOperation "x") ∧
    Operation.new [("op", Bson.int32 7)] = .err (.MissingField .UnexpectedType) ∧
    Operation.new [] = .err (.MissingField .NotPresent) :=
  ⟨(C3_tag_dispatch _).2.2.1 "x" (by simp [Document.get]) (by decide) (by decide)
      (by decide) (by decide) (by decide),
    (C3_tag_dispatch _).2.1 (Bson.int32 7) (by simp [Document.get]) (by simp [Bson.as_str]),
    (C3_tag_dispatch _).1 (by simp [Document.get])⟩

/-- Inversion of a successful `get_uid`. -/
theorem get_uid_inv {d : Document} {u : String} (h : get_uid d = .ok u) :
    ∃ lsid bytes, Document.get_document d "lsid" = .ok lsid ∧
      Document.get_binary_generic lsid "uid" = .ok bytes ∧
      u = encode bytes := by
  unfold get_uid at h
  split at h
  · simp at h
  next lsid hl =>
    split at h
    · simp at h
    next bytes hb =>
      cases h
      exact ⟨lsid, bytes, hl, hb, rfl⟩

/-- C4: a batch element that is not a document decodes to `InvalidOperation`;
document elements go through the top-level entry point `Operation::new`; a
successfully decoded batch preserves length and source order; the first
failing element's error is the error of the whole traversal; and an element
error inside `"applyOps"` is the error of the whole `from_command` call (no
partial `ApplyOps`). -/
theorem C4_batch_fail_fast (d : Document) :
    (∀ b : Bson, (∀ dd : List (String × Bson), b ≠ .document dd) →
      Operation.from_bson b = .err .InvalidOperation) ∧
    (∀ dd : Document, Operation.from_bson (.document dd) = Operation.new dd) ∧
    (∀ xs os, Operation.fromBsonList xs = .ok os →
      os.length = xs.length ∧
        ∀ i (h1 : i < xs.length) (h2 : i < os.length),
          Operation.from_bson (xs.get ⟨i, h1⟩) = .ok (os.get ⟨i, h2⟩)) ∧
    (∀ xs ys (x : Bson) (e : Error),
      (∀ y ∈ xs, ∃ o, Operation.from_bson y = .ok o) →
      Operation.from_bson x = .err e →
      Operation.fromBsonList (xs ++ x :: ys) = .err e) ∧
    (∀ o l e ts n, Document.get_timestamp d "ts" = .ok ts →
      Document.get_str d "ns" = .ok n →
      Document.get_document d "o" = .ok o →
      Document.get_array o "applyOps" = .ok l →
      Operation.fromBsonList l = .err e →
      Operation.from_command d = .err e) := by
  refine ⟨?_, ?_, ?_, ?_, ?_⟩
  · intro b hb
    rw [Operation.from_bson]
    exact fun dd hh => hb dd hh
  · intro dd
    rw [Operation.from_bson]
  · intro xs
    induction xs with
    | nil =>
      intro os h
      rw [Operation.fromBsonList] at h
      cases h
      exact ⟨rfl, fun i h1 h2 => absurd h1 (by simp)⟩
    | cons x rest ih =>
      intro os h
      rw [Operation.fromBsonList] at h
      split at h
      · simp at h
      · simp at h
      next o hx =>
        split at h
        · simp at h
        · simp at h
        next os' hrest =>
          cases h
          obtain ⟨hlen, helem⟩ := ih os' hrest
          refine ⟨by simp [hlen], ?_⟩
          intro i h1 h2
          cases i with
          | zero => simpa using hx
          | succ i' =>
            have h1' : i' < rest.length := by simpa using h1
            have h2' : i' < os'.length := by simpa using h2
            simpa using helem i' h1' h2'
  · intro xs ys x e hok hx
    induction xs with
    | nil =>
      simp only [List.nil_append]
      rw [Operation.fromBsonList, hx]
    | cons y rest ih =>
      obtain ⟨oy, hy⟩ := hok y (by simp)
      simp only [List.cons_append]
      rw [Operation.fromBsonList, hy]
      dsimp only
      rw [ih (fun z hz => hok z (by simp [hz]))]
  · intro o l e ts n hts hn ho hl hfl
    rw [Operation.from_command_eq]
    simp only [hts, hn, ho, hl, hfl]

/-- C4 (witness): the theorem applied to a non-document batch element, both
alone and as the sole element of a batch. -/
theorem C4_batch_fail_fast_witness :
    Operation.from_bson (.int32 5) = .err .InvalidOperation ∧
    Operation.fromBsonList [.int32 5] = .err .InvalidOperation :=
  ⟨(C4_batch_fail_fast []).1 (.int32 5) (by intro dd h; cases h),
    (C4_batch_fail_fast []).2.2.2.1 [] [] (.int32 5) .InvalidOperation (by simp)
      ((C4_batch_fail_fast []).1 (.int32 5) (by intro dd h; cases h))⟩

/-- C5: for a successfully decoded document whose tag is not the no-op tag
`"n"`, the operation's `uid` is the standard base64 encoding (with padding) of
the bytes in the generic binary field `"uid"` of the `"lsid"` sub-document —
a deterministic function of those bytes. -/
theorem C5_uid_is_base64_of_lsid_bytes (d : Document) (r : Operation) (s : String)
    (h : Operation.new d = .ok r) (hs : Document.get_str d "op" = .ok s)
    (hn : s ≠ "n") :
    ∃ lsid bytes, Document.get_document d "lsid" = .ok lsid ∧
      Document.get_binary_generic lsid "uid" = .ok bytes ∧
      r.uid = encode bytes := by
  obtain ⟨s', hs', hcase⟩ := Operation.new_inv h
  have hss : s' = s := by
    rw [hs'] at hs
    cases hs
    rfl
  subst hss
  rcases hcase with ⟨h1, hv⟩ | ⟨_, hv⟩ | ⟨_, hv⟩ | ⟨_, hv⟩ | ⟨_, hv⟩
  · exact absurd h1 hn
  · obtain ⟨ts, dt, u, n, o, _, _, _, hu, _, hr⟩ := Operation.from_insert_inv hv
    obtain ⟨lsid, bytes, hl, hb, hub⟩ := get_uid_inv hu
    exact ⟨lsid, bytes, hl, hb, by rw [hr, Operation.uid, hub]⟩
  · obtain ⟨ts, dt, u, n, o, o2, _, _, _, _, hu, _, hr⟩ := Operation.from_update_inv hv
    obtain ⟨lsid, bytes, hl, hb, hub⟩ := get_uid_inv hu
    exact ⟨lsid, bytes, hl, hb, by rw [hr, Operation.uid, hub]⟩
  · obtain ⟨ts, dt, u, n, o, _, _, _, hu, _, hr⟩ := Operation.from_delete_inv hv
    obtain ⟨lsid, bytes, hl, hb, hub⟩ := get_uid_inv hu
    exact ⟨lsid, bytes, hl, hb, by rw [hr, Operation.uid, hub]⟩
  · obtain ⟨ts, dt, u, n, o, _, _, _, hu, _, hbr⟩ := Operation.from_command_inv hv
    obtain ⟨lsid, bytes, hl, hb, hub⟩ := get_uid_inv hu
    rcases hbr with ⟨ops, operations, _, _, hr⟩ | ⟨_, hr⟩
    · exact ⟨lsid, bytes, hl, hb, by rw [hr, Operation.uid, hub]⟩
    · exact ⟨lsid, bytes, hl, hb, by rw [hr, Operation.uid, hub]⟩

/-- C5 (witness): the theorem applied at a small insert document carrying
`lsid.uid = [1]`, whose base64 rendering is `"AQ=="`. -/
theorem C5_uid_is_base64_of_lsid_bytes_witness :
    ∃ lsid bytes,
      Document.get_document
        [("ts", Bson.timestamp ⟨2, 0⟩), ("op", Bson.string "i"),
          ("ns", Bson.string "a"), ("o", Bson.document []),
          ("lsid", Bson.document [("uid", Bson.binary 0 [1])])] "lsid" = .ok lsid ∧
      Document.get_binary_generic lsid "uid" = .ok bytes ∧
      (Operation.Insert "AQ==" ⟨2, 0⟩ "a" []).uid = encode bytes :=
  C5_uid_is_base64_of_lsid_bytes _ _ "i"
    (by simp [Operation.new, Operation.from_insert, Document.get_str,
      Document.get_timestamp, Document.get_document, Document.get_binary_generic,
      Document.get, get_uid, timestamp_to_datetime, Utc.timestamp, encode,
      encodeChunks, b64c, base64Alphabet])
    (by simp [Document.get_str, Document.get]) (by decide)

/-- C6 (counterexample): the claim quantifies over every pair of unsigned
32-bit integers, but at log position (0, 2_000_000_000) the conversion
produces no timestamp at all — chrono rejects the nanosecond count and the
`unwrap` inside `Utc.timestamp` aborts the process (modelled as `none`). -/
theorem C6_large_increment_reconstructs_nothing :
    timestamp_to_datetime ⟨0, 2000000000⟩ = none := by
  simp [timestamp_to_datetime, Utc.timestamp]

/-- C6 (amended): for every log position whose ordinal is a valid chrono
nanosecond count (below 2·10⁹ — above that the conversion panics), the
reconstructed timestamp has exactly `seconds` as its whole-second component,
and with equal seconds a larger ordinal reconstructs to a datetime that
compares greater than or equal. -/
theorem C6_timestamp_reconstruction (s i j : Nat) (hs : s < 4294967296)
    (hi : i < 2000000000) (hj : j < 2000000000) (hij : i ≤ j) :
    ∃ dt dt', timestamp_to_datetime ⟨s, i⟩ = some dt ∧
      timestamp_to_datetime ⟨s, j⟩ = some dt' ∧
      dt.secs = (s : Int) ∧ dt'.secs = (s : Int) ∧ DateTime.le dt dt' := by
  refine ⟨⟨(s : Int), i⟩, ⟨(s : Int), j⟩, ?_, ?_, rfl, rfl, ?_⟩
  · simp only [timestamp_to_datetime, Utc.timestamp, if_pos (by omega : i ≤ 1999999999)]
  · simp only [timestamp_to_datetime, Utc.timestamp, if_pos (by omega : j ≤ 1999999999)]
  · exact .inr ⟨rfl, hij⟩

/-- C6 (witness): the amended theorem at seconds 1, ordinals 0 and 5. -/
theorem C6_timestamp_reconstruction_witness :
    ∃ dt dt', timestamp_to_datetime ⟨1, 0⟩ = some dt ∧
      timestamp_to_datetime ⟨1, 5⟩ = some dt' ∧
      dt.secs = (1 : Int) ∧ dt'.secs = (1 : Int) ∧ DateTime.le dt dt' :=
  C6_timestamp_reconstruction 1 0 5 (by decide) (by decide) (by decide) (by decide)

/-- C7: a successful decode to an `Update` takes its `query` from the
document under `"o2"` and its `update` from the document under `"o"` — never
swapped. -/
theorem C7_update_query_from_o2_update_from_o (d : Document) (u : String)
    (t : DateTime) (n : String) (q up : Document)
    (h : Operation.new d = .ok (.Update u t n q up)) :
    Document.get_document d "o2" = .ok q ∧ Document.get_document d "o" = .ok up := by
  obtain ⟨s, hs, hcase⟩ := Operation.new_inv h
  rcases hcase with ⟨_, hv⟩ | ⟨_, hv⟩ | ⟨_, hv⟩ | ⟨_, hv⟩ | ⟨_, hv⟩
  · obtain ⟨_, _, _, _, _, _, hr⟩ := Operation.from_noop_inv hv
    simp at hr
  · obtain ⟨_, _, _, _, _, _, _, _, _, _, hr⟩ := Operation.from_insert_inv hv
    simp at hr
  · obtain ⟨ts, dt, u', n', o, o2, _, _, ho, ho2, _, _, hr⟩ := Operation.from_update_inv hv
    obtain ⟨rfl, rfl, rfl, rfl, rfl⟩ :
        u = u' ∧ t = dt ∧ n = n' ∧ q = o2 ∧ up = o := by
      cases hr; exact ⟨rfl, rfl, rfl, rfl, rfl⟩
    exact ⟨ho2, ho⟩
  · obtain ⟨_, _, _, _, _, _, _, _, _, _, hr⟩ := Operation.from_delete_inv hv
    simp at hr
  · obtain ⟨_, _, _, _, _, _, _, _, _, _, hbr⟩ := Operation.from_command_inv hv
    rcases hbr with ⟨_, _, _, _, hr⟩ | ⟨_, hr⟩ <;> simp at hr

/-- C7 (witness): the theorem at a concrete update document with
`o2 = {c: 2}` and `o = {b: 1}`. -/
theorem C7_update_query_from_o2_update_from_o_witness :
    Document.get_document
        [("ts", Bson.timestamp ⟨2, 0⟩), ("op", Bson.string "u"),
          ("ns", Bson.string "a"), ("o", Bson.document [("b", Bson.int32 1)]),
          ("o2", Bson.document [("c", Bson.int32 2)]),
          ("lsid", Bson.document [("uid", Bson.binary 0 [1])])] "o2"
      = .ok [("c", Bson.int32 2)] ∧
    Document.get_document
        [("ts", Bson.timestamp ⟨2, 0⟩), ("op", Bson.string "u"),
          ("ns", Bson.string "a"), ("o", Bson.document [("b", Bson.int32 1)]),
          ("o2", Bson.document [("c", Bson.int32 2)]),
          ("lsid", Bson.document [("uid", Bson.binary 0 [1])])] "o"
      = .ok [("b", Bson.int32 1)] :=
  C7_update_query_from_o2_update_from_o _ "AQ==" ⟨2, 0⟩ "a"
    [("c", Bson.int32 2)] [("b", Bson.int32 1)]
    (by simp [Operation.new, Operation.from_update, Document.get_str,
      Document.get_timestamp, Document.get_document, Document.get_binary_generic,
      Document.get, get_uid, timestamp_to_datetime, Utc.timestamp, encode,
      encodeChunks, b64c, base64Alphabet])

/-- C8 (counterexample): the claim says the `MissingField` error identifies
the missing field, but the error carries only the accessor's
`ValueAccessError` — two update documents whose first missing field differs
(`ts` in the first, `ns` in the second, which does have `ts`) produce the
identical error value, so the error cannot identify the field. -/
theorem C8_MissingField_error_does_not_name_field :
    Operation.new [("op", Bson.string "u")] = .err (.MissingField .NotPresent) ∧
    Operation.new [("op", Bson.string "u"), ("ts", Bson.timestamp ⟨1, 0⟩)]
      = .err (.MissingField .NotPresent) ∧
    Document.get [("op", Bson.string "u")] "ts" = none ∧
    Document.get [("op", Bson.string "u"), ("ts", Bson.timestamp ⟨1, 0⟩)] "ts"
      = some (Bson.timestamp ⟨1, 0⟩) := by
  refine ⟨?_, ?_, by simp [Document.get], by simp [Document.get]⟩ <;>
    simp [Operation.new, Operation.from_update, Document.get_str,
      Document.get_timestamp, Document.get]

/-- C9: decoding is deterministic — decoding the same document twice yields
equal outcomes (equal `Operation` values on success and the same error on
failure); the decoder is a pure function of the input document. -/
theorem C9_decode_deterministic (d : Document) (r1 r2 : Outcome Operation)
    (h1 : Operation.new d = r1) (h2 : Operation.new d = r2) : r1 = r2 := by
  rw [← h1, ← h2]

/-- C9 (witness): the theorem at a concrete document, both decodes evaluated
independently. -/
theorem C9_decode_deterministic_witness :
    (Outcome.err (Error.UnknownOperation "x") : Outcome Operation)
      = .err (.UnknownOperation "x") :=
  C9_decode_deterministic [("op", Bson.string "x")] _ _
    (by simp [Operation.new, Document.get_str, Document.get])
    (by simp [Operation.new, Document.get_str, Document.get])

/-- C8 (amended): every variant extractor reads its required fields in a
fixed order (`ts`, then `ns`, then `o`, then — for updates — `o2`), and the
first field that is missing or has the wrong type short-circuits the whole
decode with a `MissingField` error; the error carries only the accessor's
`ValueAccessError` (`NotPresent`/`UnexpectedType`), not the identity of the
field.  Decoding is all-or-nothing: the result is a bare error, never a
partial operation. -/
theorem C8_first_missing_field_short_circuits (d : Document) (e : ValueAccessError) :
    (Document.get_str d "op" = .ok "n" → Document.get_timestamp d "ts" = .error e →
      Operation.new d = .err (.MissingField e)) ∧
    (Document.get_str d "op" = .ok "i" → Document.get_timestamp d "ts" = .error e →
      Operation.new d = .err (.MissingField e)) ∧
    (∀ ts, Document.get_str d "op" = .ok "i" → Document.get_timestamp d "ts" = .ok ts →
      Document.get_str d "ns" = .error e → Operation.new d = .err (.MissingField e)) ∧
    (∀ ts n, Document.get_str d "op" = .ok "i" → Document.get_timestamp d "ts" = .ok ts →
      Document.get_str d "ns" = .ok n → Document.get_document d "o" = .error e →
      Operation.new d = .err (.MissingField e)) ∧
    (Document.get_str d "op" = .ok "u" → Document.get_timestamp d "ts" = .error e →
      Operation.new d = .err (.MissingField e)) ∧
    (∀ ts, Document.get_str d "op" = .ok "u" → Document.get_timestamp d "ts" = .ok ts →
      Document.get_str d "ns" = .error e → Operation.new d = .err (.MissingField e)) ∧
    (∀ ts n, Document.get_str d "op" = .ok "u" → Document.get_timestamp d "ts" = .ok ts →
      Document.get_str d "ns" = .ok n → Document.get_document d "o" = .error e →
      Operation.new d = .err (.MissingField e)) ∧
    (∀ ts n o, Document.get_str d "op" = .ok "u" → Document.get_timestamp d "ts" = .ok ts →
      Document.get_str d "ns" = .ok n → Document.get_document d "o" = .ok o →
      Document.get_document d "o2" = .error e →
      Operation.new d = .err (.MissingField e)) ∧
    (Document.get_str d "op" = .ok "d" → Document.get_timestamp d "ts" = .error e →
      Operation.new d = .err (.MissingField e)) ∧
    (∀ ts, Document.get_str d "op" = .ok "d" → Document.get_timestamp d "ts" = .ok ts →
      Document.get_str d "ns" = .error e → Operation.new d = .err (.MissingField e)) ∧
    (∀ ts n, Document.get_str d "op" = .ok "d" → Document.get_timestamp d "ts" = .ok ts →
      Document.get_str d "ns" = .ok n → Document.get_document d "o" = .error e →
      Operation.new d = .err (.MissingField e)) ∧
    (Document.get_str d "op" = .ok "c" → Document.get_timestamp d "ts" = .error e →
      Operation.new d = .err (.MissingField e)) ∧
    (∀ ts, Document.get_str d "op" = .ok "c" → Document.get_timestamp d "ts" = .ok ts →
      Document.get_str d "ns" = .error e → Operation.new d = .err (.MissingField e)) ∧
    (∀ ts n, Document.get_str d "op" = .ok "c" → Document.get_timestamp d "ts" = .ok ts →
      Document.get_str d "ns" = .ok n → Document.get_document d "o" = .error e →
      Operation.new d = .err (.MissingField e)) := by
  refine ⟨?_, ?_, ?_, ?_, ?_, ?_, ?_, ?_, ?_, ?_, ?_, ?_, ?_, ?_⟩
  · intro hop hts
    rw [Operation.new, hop]
    simp [Operation.from_noop, hts]
  · intro hop hts
    rw [Operation.new, hop]
    simp [Operation.from_insert, hts]
  · intro ts hop hts hns
    rw [Operation.new, hop]
    simp [Operation.from_insert, hts, hns]
  · intro ts n hop hts hns ho
    rw [Operation.new, hop]
    simp [Operation.from_insert, hts, hns, ho]
  · intro hop hts
    rw [Operation.new, hop]
    simp [Operation.from_update, hts]
  · intro ts hop hts hns
    rw [Operation.new, hop]
    simp [Operation.from_update, hts, hns]
  · intro ts n hop hts hns ho
    rw [Operation.new, hop]
    simp [Operation.from_update, hts, hns, ho]
  · intro ts n o hop hts hns ho ho2
    rw [Operation.new, hop]
    simp [Operation.from_update, hts, hns, ho, ho2]
  · intro hop hts
    rw [Operation.new, hop]
    simp [Operation.from_delete, hts]
  · intro ts hop hts hns
    rw [Operation.new, hop]
    simp [Operation.from_delete, hts, hns]
  · intro ts n hop hts hns ho
    rw [Operation.new, hop]
    simp [Operation.from_delete, hts, hns, ho]
  · intro hop hts
    rw [Operation.new, hop]
    simp [Operation.from_command_eq, hts]
  · intro ts hop hts hns
    rw [Operation.new, hop]
    simp [Operation.from_command_eq, hts, hns]
  · intro ts n hop hts hns ho
    rw [Operation.new, hop]
    simp [Operation.from_command_eq, hts, hns, ho]

/-- C8 (witness): the amended theorem at an update document whose first
missing required field is `"o2"`. -/
theorem C8_first_missing_field_short_circuits_witness :
    Operation.new [("op", Bson.string "u"), ("ts", Bson.timestamp ⟨1, 0⟩),
        ("ns", Bson.string "a"), ("o", Bson.document [])]
      = .err (.MissingField .NotPresent) :=
  (C8_first_missing_field_short_circuits _ .NotPresent).2.2.2.2.2.2.2.1
    ⟨1, 0⟩ "a" [] (by simp [Document.get_str, Document.get])
    (by simp [Document.get_timestamp, Document.get])
    (by simp [Document.get_str, Document.get])
    (by simp [Document.get_document, Document.get])
    (by simp [Document.get_document, Document.get])

/-- A document's size is at least one. -/
theorem Document.sizeOf_pos (d : Document) : 1 ≤ sizeOf d := by
  cases d with
  | nil => simp
  | cons p rest =>
    simp
    omega

/-- The looked-up value (as an `Option`) is never larger than the document. -/
theorem Document.get_sizeOf_le (d : Document) (key : String) :
    sizeOf (Document.get d key) ≤ sizeOf d := by
  cases hg : Document.get d key with
  | none =>
    have := Document.sizeOf_pos d
    simp
    omega
  | some v =>
    have := Document.get_sizeOf hg
    simp
    omega

inductive Strip where
  | mkDoc (op ts ns o2 lsid : Option Bson) (o : Strip)
  | batch (xs : List Strip)
  | plain (v : Option Bson)
  | other (b : Bson)

mutual

/-- The relevant view of a document for C10: the values the decoder reads —
the lookups under `"op"`, `"ts"`, `"ns"`, `"o2"`, `"lsid"` — and, for the
payload under `"o"`: the raw value, except that for a command-tagged document
holding an `"applyOps"` array only the recursively stripped batch elements
are kept (their other fields are never read).  Two documents "agree" in the
sense of the claim exactly when their stripped views are equal. -/
def stripDoc (d : Document) : Strip :=
  .mkDoc (Document.get d "op") (Document.get d "ts") (Document.get d "ns")
    (Document.get d "o2") (Document.get d "lsid")
    (match Document.get d "op" with
      | some (.string "c") => stripO (Document.get d "o")
      | _ => .plain (Document.get d "o"))
termination_by 2 * sizeOf d + 1
decreasing_by
  have := Document.get_sizeOf_le d "o"
  omega

/-- The relevant view of a command payload. -/
def stripO (a : Option Bson) : Strip :=
  match a with
  | some (.document o1) =>
    match h : Document.get_array o1 "applyOps" with
    | .ok xs => .batch (stripList xs)
    | .error _ => .plain (some (.document o1))
  | x => .plain x
termination_by 2 * sizeOf a
decreasing_by
  have := Document.get_array_sizeOf h
  simp
  omega

/-- The relevant views of the batch elements, in order. -/
def stripList (xs : List Bson) : List Strip :=
  match xs with
  | [] => []
  | x :: rest => stripElem x :: stripList rest
termination_by 2 * sizeOf xs

/-- The relevant view of a batch element. -/
def stripElem (x : Bson) : Strip :=
  match x with
  | .document e => stripDoc e
  | b => .other b
termination_by 2 * sizeOf x

end

/-- `stripO` restated with unnamed matches, for rewriting. -/
theorem stripO_eq (a : Option Bson) :
    stripO a =
      match a with
      | some (.document o1) =>
        match Document.get_array o1 "applyOps" with
        | .ok xs => .batch (stripList xs)
        | .error _ => .plain (some (.document o1))
      | x => .plain x := by
  cases a with
  | none =>
    rw [stripO]
    exact fun o1 hh => by simp at hh
  | some b =>
    cases b with
    | document o1 =>
      rw [stripO]
      dsimp only
      cases Document.get_array o1 "applyOps" with
      | ok xs => rfl
      | error e => rfl
    | int32 v => rw [stripO]; exact fun o1 hh => by simp at hh
    | int64 v => rw [stripO]; exact fun o1 hh => by simp at hh
    | string v => rw [stripO]; exact fun o1 hh => by simp at hh
    | boolean v => rw [stripO]; exact fun o1 hh => by simp at hh
    | null => rw [stripO]; exact fun o1 hh => by simp at hh
    | array v => rw [stripO]; exact fun o1 hh => by simp at hh
    | binary st by2 => rw [stripO]; exact fun o1 hh => by simp at hh
    | timestamp t => rw [stripO]; exact fun o1 hh => by simp at hh

/-- `stripDoc` always produces a `mkDoc` view. -/
theorem stripDoc_head (d : Document) :
    ∃ op ts ns o2 lsid o, stripDoc d = .mkDoc op ts ns o2 lsid o := by
  rw [stripDoc]
  exact ⟨_, _, _, _, _, _, rfl⟩

/-- Inversion of equal payload views: the payloads are equal outright, or
both are documents holding `"applyOps"` arrays with equal stripped views. -/
theorem stripO_inv {a b : Option Bson} (h : stripO a = stripO b) :
    a = b ∨ ∃ o1 o2 xs ys, a = some (.document o1) ∧ b = some (.document o2) ∧
      Document.get_array o1 "applyOps" = .ok xs ∧
      Document.get_array o2 "applyOps" = .ok ys ∧
      stripList xs = stripList ys := by
  rw [stripO_eq a, stripO_eq b] at h
  split at h
  next o1 =>
    split at h
    next xs hx1 =>
      split at h
      next o2 =>
        split at h
        next ys hx2 =>
          right
          exact ⟨o1, o2, xs, ys, rfl, rfl, hx1, hx2, by injection h⟩
        next e2 hx2 => simp at h
      next => simp at h
    next e1 hx1 =>
      split at h
      next o2 =>
        split at h
        next ys hx2 => simp at h
        next e2 hx2 =>
          left
          simp at h
          rw [h]
      next =>
        left
        simp at h
        rw [h]
  next =>
    split at h
    next o2 =>
      split at h
      next ys hx2 => simp at h
      next e2 hx2 =>
        left
        simp at h
        rw [h]
    next =>
      left
      simp at h
      rw [h]

/-- `stripElem` on a document. -/
theorem stripElem_document (e : Document) :
    stripElem (.document e) = stripDoc e := by
  rw [stripElem]

/-- `stripElem` on a non-document. -/
theorem stripElem_other (b : Bson) (hb : ∀ e, b ≠ .document e) :
    stripElem b = .other b := by
  rw [stripElem]
  exact fun e hh => hb e hh

/-- Inversion of equal element views. -/
theorem stripElem_inv {x y : Bson} (h : stripElem x = stripElem y) :
    x = y ∨ ∃ e1 e2, x = .document e1 ∧ y = .document e2 ∧ stripDoc e1 = stripDoc e2 := by
  by_cases hx : ∃ e1, x = .document e1
  · obtain ⟨e1, rfl⟩ := hx
    by_cases hy : ∃ e2, y = .document e2
    · obtain ⟨e2, rfl⟩ := hy
      rw [stripElem_document, stripElem_document] at h
      exact .inr ⟨e1, e2, rfl, rfl, h⟩
    · rw [stripElem_document,
        stripElem_other y (fun e he => hy ⟨e, he⟩)] at h
      obtain ⟨op, ts, ns, o2, lsid, o, hh⟩ := stripDoc_head e1
      rw [hh] at h
      simp at h
  · by_cases hy : ∃ e2, y = .document e2
    · obtain ⟨e2, rfl⟩ := hy
      rw [stripElem_other x (fun e he => hx ⟨e, he⟩), stripElem_document] at h
      obtain ⟨op, ts, ns, o2, lsid, o, hh⟩ := stripDoc_head e2
      rw [hh] at h
      simp at h
    · rw [stripElem_other x (fun e he => hx ⟨e, he⟩),
        stripElem_other y (fun e he => hy ⟨e, he⟩)] at h
      exact .inl (by injection h)

/-- A successful `get_str` means the key holds that string. -/
theorem Document.get_str_ok {d : Document} {key : String} {s : String}
    (h : Document.get_str d key = .ok s) : Document.get d key = some (.string s) := by
  unfold Document.get_str at h
  split at h
  · simp at h
  next s' hg =>
    cases h
    exact hg
  · simp at h

/-- Congruences: the typed accessors only look at the value under their key. -/
theorem Document.get_str_congr {d1 d2 : Document} {key : String}
    (h : Document.get d1 key = Document.get d2 key) :
    Document.get_str d1 key = Document.get_str d2 key := by
  unfold Document.get_str
  rw [h]

theorem Document.get_timestamp_congr {d1 d2 : Document} {key : String}
    (h : Document.get d1 key = Document.get d2 key) :
    Document.get_timestamp d1 key = Document.get_timestamp d2 key := by
  unfold Document.get_timestamp
  rw [h]

theorem Document.get_document_congr {d1 d2 : Document} {key : String}
    (h : Document.get d1 key = Document.get d2 key) :
    Document.get_document d1 key = Document.get_document d2 key := by
  unfold Document.get_document
  rw [h]

/-- `get_uid` only looks at the value under `"lsid"`. -/
theorem get_uid_congr {d1 d2 : Document}
    (h : Document.get d1 "lsid" = Document.get d2 "lsid") :
    get_uid d1 = get_uid d2 := by
  unfold get_uid Document.get_document
  rw [h]

/-- `from_noop` only looks at the values under `"ts"`, `"o"` and `"lsid"`. -/
theorem Operation.from_noop_congr {d1 d2 : Document}
    (hts : Document.get d1 "ts" = Document.get d2 "ts")
    (ho : Document.get d1 "o" = Document.get d2 "o")
    (hlsid : Document.get d1 "lsid" = Document.get d2 "lsid") :
    Operation.from_noop d1 = Operation.from_noop d2 := by
  unfold Operation.from_noop
  rw [Document.get_timestamp_congr hts, get_uid_congr hlsid, ho]

/-- `from_insert` only looks at `"ts"`, `"ns"`, `"o"` and `"lsid"`. -/
theorem Operation.from_insert_congr {d1 d2 : Document}
    (hts : Document.get d1 "ts" = Document.get d2 "ts")
    (hns : Document.get d1 "ns" = Document.get d2 "ns")
    (ho : Document.get d1 "o" = Document.get d2 "o")
    (hlsid : Document.get d1 "lsid" = Document.get d2 "lsid") :
    Operation.from_insert d1 = Operation.from_insert d2 := by
  unfold Operation.from_insert
  rw [Document.get_timestamp_congr hts, Document.get_str_congr hns,
    Document.get_document_congr ho, get_uid_congr hlsid]

/-- `from_update` only looks at `"ts"`, `"ns"`, `"o"`, `"o2"` and `"lsid"`. -/
theorem Operation.from_update_congr {d1 d2 : Document}
    (hts : Document.get d1 "ts" = Document.get d2 "ts")
    (hns : Document.get d1 "ns" = Document.get d2 "ns")
    (ho : Document.get d1 "o" = Document.get d2 "o")
    (ho2 : Document.get d1 "o2" = Document.get d2 "o2")
    (hlsid : Document.get d1 "lsid" = Document.get d2 "lsid") :
    Operation.from_update d1 = Operation.from_update d2 := by
  unfold Operation.from_update
  rw [Document.get_timestamp_congr hts, Document.get_str_congr hns,
    Document.get_document_congr ho, Document.get_document_congr ho2,
    get_uid_congr hlsid]

/-- `from_delete` only looks at `"ts"`, `"ns"`, `"o"` and `"lsid"`. -/
theorem Operation.from_delete_congr {d1 d2 : Document}
    (hts : Document.get d1 "ts" = Document.get d2 "ts")
    (hns : Document.get d1 "ns" = Document.get d2 "ns")
    (ho : Document.get d1 "o" = Document.get d2 "o")
    (hlsid : Document.get d1 "lsid" = Document.get d2 "lsid") :
    Operation.from_delete d1 = Operation.from_delete d2 := by
  unfold Operation.from_delete
  rw [Document.get_timestamp_congr hts, Document.get_str_congr hns,
    Document.get_document_congr ho, get_uid_congr hlsid]

/-- `from_command` only looks at `"ts"`, `"ns"`, `"o"` and `"lsid"` (with an
outright-equal payload the whole recursion coincides). -/
theorem Operation.from_command_congr {d1 d2 : Document}
    (hts : Document.get d1 "ts" = Document.get d2 "ts")
    (hns : Document.get d1 "ns" = Document.get d2 "ns")
    (ho : Document.get d1 "o" = Document.get d2 "o")
    (hlsid : Document.get d1 "lsid" = Document.get d2 "lsid") :
    Operation.from_command d1 = Operation.from_command d2 := by
  rw [Operation.from_command_eq, Operation.from_command_eq]
  simp only [Document.get_timestamp_congr hts, Document.get_str_congr hns,
    Document.get_document_congr ho, get_uid_congr hlsid]

/-- The decoder computes the same result on any two documents with equal
stripped views, at every recursion level; proved by strong induction on the
size of the first argument. -/
theorem strip_decode_aux (n : Nat) :
    (∀ d1 d2 : Document, sizeOf d1 ≤ n → stripDoc d1 = stripDoc d2 →
      Operation.new d1 = Operation.new d2) ∧
    (∀ x y : Bson, sizeOf x ≤ n → stripElem x = stripElem y →
      Operation.from_bson x = Operation.from_bson y) ∧
    (∀ xs ys : List Bson, sizeOf xs ≤ n → stripList xs = stripList ys →
      Operation.fromBsonList xs = Operation.fromBsonList ys) := by
  induction n using Nat.strong_induction_on with
  | _ n ih =>
    refine ⟨?_, ?_, ?_⟩
    · intro d1 d2 hn hag
      rw [stripDoc, stripDoc] at hag
      injection hag with hop hts hns ho2 hlsid ho
      rw [Operation.new, Operation.new, Document.get_str_congr hop]
      cases hgs : Document.get_str d2 "op" with
      | error e => rfl
      | ok s =>
        have hd2op := Document.get_str_ok hgs
        have hd1op : Document.get d1 "op" = some (.string s) := by rw [hop, hd2op]
        rw [hd1op, hd2op] at ho
        dsimp only
        by_cases h1 : s = "n"
        · subst h1
          simp only [String.reduceEq, reduceIte]
          have hoeq : Document.get d1 "o" = Document.get d2 "o" := by
            injection ho
          exact Operation.from_noop_congr hts hoeq hlsid
        by_cases h2 : s = "i"
        · subst h2
          simp only [String.reduceEq, reduceIte]
          have hoeq : Document.get d1 "o" = Document.get d2 "o" := by
            injection ho
          exact Operation.from_insert_congr hts hns hoeq hlsid
        by_cases h3 : s = "u"
        · subst h3
          simp only [String.reduceEq, reduceIte]
          have hoeq : Document.get d1 "o" = Document.get d2 "o" := by
            injection ho
          exact Operation.from_update_congr hts hns hoeq ho2 hlsid
        by_cases h4 : s = "d"
        · subst h4
          simp only [String.reduceEq, reduceIte]
          have hoeq : Document.get d1 "o" = Document.get d2 "o" := by
            injection ho
          exact Operation.from_delete_congr hts hns hoeq hlsid
        by_cases h5 : s = "c"
        · subst h5
          simp only [String.reduceEq, reduceIte]
          rcases stripO_inv ho with hoeq | ⟨o1, o2, xs, ys, ha1, ha2, hx1, hx2, hsl⟩
          · exact Operation.from_command_congr hts hns hoeq hlsid
          · have hod1 : Document.get_document d1 "o" = .ok o1 := by
              unfold Document.get_document
              rw [ha1]
            have hod2 : Document.get_document d2 "o" = .ok o2 := by
              unfold Document.get_document
              rw [ha2]
            have s1 := Document.get_sizeOf ha1
            have s2 := Document.get_array_sizeOf hx1
            have hfb : Operation.fromBsonList xs = Operation.fromBsonList ys := by
              have hlt : sizeOf xs < n := by
                simp at s1
                omega
              exact (ih (sizeOf xs) hlt).2.2 xs ys le_rfl hsl
            rw [Operation.from_command_eq, Operation.from_command_eq]
            simp only [Document.get_timestamp_congr hts, Document.get_str_congr hns,
              get_uid_congr hlsid, hod1, hod2, hx1, hx2, hfb]
        simp only [if_neg h1, if_neg h2, if_neg h3, if_neg h4, if_neg h5]
    · intro x y hn he
      rcases stripElem_inv he with rfl | ⟨e1, e2, rfl, rfl, hd⟩
      · rfl
      · rw [Operation.from_bson, Operation.from_bson]
        have hlt : sizeOf e1 < n := by
          simp at hn
          omega
        exact (ih (sizeOf e1) hlt).1 e1 e2 le_rfl hd
    · intro xs ys hn hl
      cases xs with
      | nil =>
        cases ys with
        | nil => rfl
        | cons y ys' =>
          rw [stripList, stripList] at hl
          simp at hl
      | cons x xs' =>
        cases ys with
        | nil =>
          rw [stripList, stripList] at hl
          simp at hl
        | cons y ys' =>
          rw [stripList, stripList] at hl
          injection hl with h1 h2
          have hx : Operation.from_bson x = Operation.from_bson y := by
            have hlt : sizeOf x < n := by
              simp at hn
              omega
            exact (ih (sizeOf x) hlt).2.1 x y le_rfl h1
          have hrest : Operation.fromBsonList xs' = Operation.fromBsonList ys' := by
            have hlt : sizeOf xs' < n := by
              simp at hn
              omega
            exact (ih (sizeOf xs') hlt).2.2 xs' ys' le_rfl h2
          rw [Operation.fromBsonList, Operation.fromBsonList]
          simp only [hx, hrest]

/-- C10: the decoder depends only on the fields it reads — if two documents
hold equal values under `"op"`, `"ts"`, `"ns"`, `"o"`, `"o2"` and `"lsid"`
(with agreement inside a command's `"applyOps"` batch elements again only on
those keys, recursively), decoding returns equal results; any other fields,
such as `"h"`, `"v"` or `"t"`, have no influence. -/
theorem C10_decode_depends_only_on_read_fields (d1 d2 : Document)
    (h : stripDoc d1 = stripDoc d2) : Operation.new d1 = Operation.new d2 :=
  (strip_decode_aux (sizeOf d1)).1 d1 d2 le_rfl h

/-- C10 (witness): two insert documents that differ only in the irrelevant
fields `"h"` and `"v"` decode to equal results. -/
theorem C10_decode_depends_only_on_read_fields_witness :
    Operation.new
        [("op", Bson.string "i"), ("ts", Bson.timestamp ⟨2, 0⟩),
          ("h", Bson.int64 1), ("ns", Bson.string "a"), ("o", Bson.document []),
          ("lsid", Bson.document [("uid", Bson.binary 0 [1])])]
      = Operation.new
        [("op", Bson.string "i"), ("ts", Bson.timestamp ⟨2, 0⟩),
          ("h", Bson.int64 2), ("v", Bson.int32 5), ("ns", Bson.string "a"),
          ("o", Bson.document []),
          ("lsid", Bson.document [("uid", Bson.binary 0 [1])])] :=
  C10_decode_depends_only_on_read_fields _ _
    (by simp [stripDoc, Document.get])

end Oplog
